import Mathlib

/-!
Verification of the `llam` (lua language addon manager) reconciliation engine
against its natural-language specification.

The development shallowly embeds the Rust sources:

* `src/git/cli.rs` — the version-control client.  Each operation shells out to
  `git` and inspects (or ignores) the captured `std::process::Output`.  We model
  a subprocess run as a value of `CmdOutput` (exit status as a success flag plus
  captured stdout/stderr) and a possibly-failed spawn as
  `Except Err CmdOutput`; each `Cli` function becomes a pure function of that
  result.
* `src/manager.rs` — the reconciliation engine (`Manager::add/update/remove/clean`).
  Filesystem and git effects are modelled by explicit environments scripting the
  outcome of each external call, and each operation returns the trace of
  external actions it performed together with its result.
* `src/config.rs` — the `.luarc.json` manifest store (`LuaRc`).

The `Addon` record itself lives in the crate root module (`lib.rs`), which is
not part of the provided sources; its shape and merge behaviour are modelled
from the specification where needed and each such definition is marked
`Modelled from the spec:` in its doc comment.
-/

/-- Error kinds of `src/error.rs` that matter to control flow: `Error::Io`
(spawn or filesystem failure, payload irrelevant here) and `Error::Custom`
(a message built from captured stderr).  The remaining variants
(`Context`, `Reqwest`, `Json`) never arise in the embedded code paths. -/
inductive Err where
  | ioErr : Err
  | custom (msg : String) : Err
deriving DecidableEq, Repr

/-- The captured result of a finished `git` subprocess
(`std::process::Output`): exit-status success flag plus the captured
stdout and stderr streams. -/
structure CmdOutput where
  success : Bool
  stdout : String
  stderr : String
deriving DecidableEq, Repr

/-- A subprocess run as seen by the Rust caller: `Command::output()` either
fails to spawn (`Err`, the `?` on `output()`) or yields a `CmdOutput`. -/
abbrev CmdResult := Except Err CmdOutput

/-- Rust `str::trim`: strip leading and trailing whitespace.  Modelled
structurally over the character list so that it evaluates by reduction. -/
def strTrim (s : String) : String :=
  ⟨((s.data.dropWhile Char.isWhitespace).reverse.dropWhile Char.isWhitespace).reverse⟩

/-- `Cli::checksum` (src/git/cli.rs:21-39): runs `rev-parse --verify HEAD`
(no branch) or `log -n 1 origin/<branch> --pretty=format:'%H'` (with a
branch); a non-success exit is surfaced as `Error::custom` carrying the
captured stderr, otherwise the trimmed stdout is returned. -/
def Cli.checksum (result : CmdResult) : Except Err String :=
  match result with
  | .error e => .error e
  | .ok out =>
      if !out.success then
        .error (.custom ("Failed to get latest checksum:\n" ++ out.stderr))
      else
        .ok (strTrim out.stdout)

/-- `Cli::branch_name` (src/git/cli.rs:41-48): runs
`rev-parse --abbrev-ref HEAD` and returns the trimmed stdout.  The exit
status is never inspected. -/
def Cli.branch_name (result : CmdResult) : Except Err String :=
  match result with
  | .error e => .error e
  | .ok out => .ok (strTrim out.stdout)

/-- Rust `str::rsplit_once(c)` on a list of characters: splits around the
last occurrence of `c`, returning `none` when `c` does not occur. -/
def rsplitOnceChars (c : Char) : List Char → Option (List Char × List Char)
  | [] => none
  | x :: xs =>
      match rsplitOnceChars c xs with
      | some (l, r) => some (x :: l, r)
      | none => if x = c then some ([], xs) else none

/-- Rust `str::rsplit_once(c)` on strings. -/
def rsplitOnce (s : String) (c : Char) : Option (String × String) :=
  (rsplitOnceChars c s.data).map fun p => (⟨p.1⟩, ⟨p.2⟩)

/-- `Cli::default_branch_name` (src/git/cli.rs:50-58): runs
`symbolic-ref refs/remotes/origin/HEAD`, trims the stdout and takes the part
after the last `/` via `rsplit_once('/').unwrap()`.  The exit status is never
inspected.  The `unwrap` panics when the trimmed stdout has no `/`; the panic
is modelled as the value `none` inside a successful return. -/
def Cli.default_branch_name (result : CmdResult) : Except Err (Option String) :=
  match result with
  | .error e => .error e
  | .ok out => .ok ((rsplitOnce (strTrim out.stdout) '/').map Prod.snd)

/-- `Cli::fetch` (src/git/cli.rs:60-67): runs `fetch -p` and returns `Ok(())`
whenever the subprocess spawned, ignoring the exit status and the streams. -/
def Cli.fetch (result : CmdResult) : Except Err Unit :=
  match result with
  | .error e => .error e
  | .ok _ => .ok ()

/-- `Cli::switch` (src/git/cli.rs:69-76): runs `switch <branch>` and returns
`Ok(())` whenever the subprocess spawned, ignoring the exit status. -/
def Cli.switch (result : CmdResult) : Except Err Unit :=
  match result with
  | .error e => .error e
  | .ok _ => .ok ()

/-- `Cli::pull` (src/git/cli.rs:78-90): runs `pull [--force]` and returns
`Ok(())` whenever the subprocess spawned, ignoring the exit status. -/
def Cli.pull (result : CmdResult) : Except Err Unit :=
  match result with
  | .error e => .error e
  | .ok _ => .ok ()

/-- Argument vector of `Cli::pull` (src/git/cli.rs:79-82). -/
def Cli.pull_args (force : Bool) : List String :=
  if force then ["pull", "--force"] else ["pull"]

/-- `ResetType` (src/git/cli.rs:5-17) with its `AsRef<str>` rendering. -/
inductive ResetType where
  | soft
  | hard
deriving DecidableEq, Repr

def ResetType.asRef : ResetType → String
  | .soft => "soft"
  | .hard => "hard"

/-- Argument vector built by `Cli::reset` (src/git/cli.rs:92-101):
`vec!["pull", ty.as_ref()]` plus the optional target. -/
def Cli.reset_args (ty : ResetType) (target : Option String) : List String :=
  ["pull", ty.asRef] ++ (match target with
    | some t => [t]
    | none => [])

/-- `Cli::reset` (src/git/cli.rs:92-104): spawns git with `Cli.reset_args`
and returns `Ok(())` whenever the subprocess spawned, ignoring the exit
status. -/
def Cli.reset (result : CmdResult) : Except Err Unit :=
  match result with
  | .error e => .error e
  | .ok _ => .ok ()

/-- `Cli::clone` (src/git/cli.rs:106-117): runs `clone <url> <name>`; a
non-success exit is surfaced as `Error::custom` carrying the trimmed
stderr. -/
def Cli.clone (result : CmdResult) : Except Err Unit :=
  match result with
  | .error e => .error e
  | .ok out => if out.success then .ok () else .error (.custom (strTrim out.stderr))

/-- Characters occurring in a string, for stating "stdout contains no `/`". -/
def strHasChar (s : String) (c : Char) : Bool :=
  s.data.any (fun x => x = c)

theorem rsplitOnceChars_eq_none_of_not_mem {c : Char} :
    ∀ {l : List Char}, c ∉ l → rsplitOnceChars c l = none := by
  intro l
  induction l with
  | nil => intro _; rfl
  | cons x xs ih =>
      intro h
      have hx : x ≠ c := fun hxc => h (hxc ▸ List.mem_cons_self x xs)
      have hxs : c ∉ xs := fun hm => h (List.mem_cons_of_mem x hm)
      simp [rsplitOnceChars, ih hxs, hx]

theorem rsplitOnce_eq_none_of_no_char {s : String} {c : Char}
    (h : strHasChar s c = false) : rsplitOnce s c = none := by
  have hmem : c ∉ s.data := by
    intro hm
    rw [strHasChar] at h
    have ht : s.data.any (fun x => x = c) = true :=
      List.any_eq_true.mpr ⟨c, hm, by simp⟩
    rw [h] at ht
    cases ht
  simp [rsplitOnce, rsplitOnceChars_eq_none_of_not_mem hmem]

/-- C2 counterexample: `Cli::fetch` on a subprocess that exited non-zero with
captured stderr still returns success, so it is not the case that every
operation surfaces a non-zero exit as a failure. -/
theorem cli_fetch_succeeds_on_nonzero_exit :
    Cli.fetch (.ok ⟨false, "", "fatal: unable to access remote"⟩) = .ok () ∧
    Cli.switch (.ok ⟨false, "", "fatal: invalid reference"⟩) = .ok () ∧
    Cli.pull (.ok ⟨false, "", "fatal: not a git repository"⟩) = .ok () ∧
    Cli.reset (.ok ⟨false, "", "fatal: bad revision"⟩) = .ok () := by
  refine ⟨rfl, rfl, rfl, rfl⟩

/-- C2 (amended): among the client operations, only `clone` and the
revision read (`checksum`) surface a non-zero subprocess exit as a failure
carrying the captured error stream; `fetch`, `switch`, `pull` and `reset`
ignore the exit status entirely and return success for every spawned
subprocess, failing only when the spawn itself fails. -/
theorem cli_exit_status_handling (out : CmdOutput) (h : out.success = false) :
    Cli.checksum (.ok out)
        = .error (.custom ("Failed to get latest checksum:\n" ++ out.stderr)) ∧
    Cli.clone (.ok out) = .error (.custom (strTrim out.stderr)) ∧
    Cli.fetch (.ok out) = .ok () ∧
    Cli.switch (.ok out) = .ok () ∧
    Cli.pull (.ok out) = .ok () ∧
    Cli.reset (.ok out) = .ok () := by
  refine ⟨?_, ?_, rfl, rfl, rfl, rfl⟩
  · simp [Cli.checksum, h]
  · simp [Cli.clone, h]

/-- C2 witness: the amended statement evaluated at a concrete failed
subprocess output. -/
theorem cli_exit_status_handling_witness :
    (⟨false, "", "fatal: boom"⟩ : CmdOutput).success = false ∧
    Cli.clone (.ok ⟨false, "", "fatal: boom"⟩) = .error (.custom "fatal: boom") := by
  have h := cli_exit_status_handling ⟨false, "", "fatal: boom"⟩ rfl
  refine ⟨rfl, ?_⟩
  have htrim : strTrim "fatal: boom" = "fatal: boom" := by decide
  simpa [htrim] using h.2.1

/-- C3: the `reset` operation with the hard flag and a target revision
invokes git with argument vector `["pull", "hard", target]` — the `pull`
subcommand with a bare `hard` argument — not the claimed
`["reset", "--hard", target]`. -/
theorem cli_reset_argv_is_pull_hard :
    Cli.reset_args .hard (some "abc123") = ["pull", "hard", "abc123"] ∧
    Cli.reset_args .hard (some "abc123") ≠ ["reset", "--hard", "abc123"] ∧
    Cli.reset_args .hard none = ["pull", "hard"] := by
  refine ⟨rfl, by decide, rfl⟩

/-- C10: whenever the `symbolic-ref refs/remotes/origin/HEAD` subprocess
produces (possibly after trimming) a stdout containing no `/` — regardless of
its exit status, which is never checked — `Cli::default_branch_name` reaches
`rsplit_once('/').unwrap()` on `none` and panics; the panic is the `none`
inside the returned value rather than an error result. -/
theorem default_branch_name_panics_without_slash (out : CmdOutput)
    (h : strHasChar (strTrim out.stdout) '/' = false) :
    Cli.default_branch_name (.ok out) = .ok none := by
  simp [Cli.default_branch_name, rsplitOnce_eq_none_of_no_char h]

/-- C10 witness: the exact scenario of a failed command printing nothing —
exit status non-zero, empty stdout — yields the panic value. -/
theorem default_branch_name_panics_without_slash_witness :
    strHasChar (strTrim "") '/' = false ∧
    Cli.default_branch_name (.ok ⟨false, "", "fatal: ref does not exist"⟩)
      = .ok none := by
  refine ⟨by decide, default_branch_name_panics_without_slash _ (by decide)⟩

/-- Modelled from the spec: the `Addon` record (crate root module, not under
src/).  Identity and target of one addon (§3 of the spec): `name` is the
unique key, `source` stands for the `AddonSource` already resolved to its
clone URL, `branch` optionally pins a tracking branch, `checksum` optionally
pins an exact revision. -/
structure Addon where
  name : String
  source : String
  branch : Option String
  checksum : Option String
deriving DecidableEq, Repr

/-- Modelled from the spec: `AddonSource` "converts deterministically to a
clone URL"; with the source already held as its URL this is the identity. -/
def Addon.clone_url (a : Addon) : String :=
  a.source

/-- Modelled from the spec: `Addon::merge` (crate root module, not under
src/).  Merging a declaration `d` into an existing entry `e` keeps any field
of `e` that `d` leaves unset; fields `d` does set take the declaration's
values, and the name (the map key both records share) is kept. -/
def Addon.merge (e d : Addon) : Addon :=
  { name := e.name
    source := d.source
    branch := match d.branch with
      | some b => some b
      | none => e.branch
    checksum := match d.checksum with
      | some c => some c
      | none => e.checksum }

/-- The `workspace.addons` map of the manifest
(`BTreeMap<Cow<str>, Addon>` in src/config.rs:702), modelled as an
association list keyed by addon name.  All reasoning is through `lookupAddon`,
so the BTreeMap's key ordering is irrelevant. -/
abbrev Manifest := List (String × Addon)

def lookupAddon : Manifest → String → Option Addon
  | [], _ => none
  | e :: rest, k => if e.1 = k then some e.2 else lookupAddon rest k

/-- `BTreeMap::contains_key`. -/
def containsKey (m : Manifest) (k : String) : Bool :=
  (lookupAddon m k).isSome

/-- Replace the value stored under an existing key (what
`get_mut(&name).unwrap().merge(addon)` does to the map). -/
def replaceKey (m : Manifest) (k : String) (v : Addon) : Manifest :=
  m.map fun e => if e.1 = k then (k, v) else e

/-- `LuaRc::update_addon` (src/config.rs:822-831): on a vacant entry the
incoming declaration is inserted as-is; on an occupied entry the stored
addon is merged in place with the declaration. -/
def updateAddon (m : Manifest) (a : Addon) : Manifest :=
  match lookupAddon m a.name with
  | none => (a.name, a) :: m
  | some e => replaceKey m a.name (e.merge a)

/-- The entry stored under `a.name` after `updateAddon m a`. -/
def mergedOf (m : Manifest) (a : Addon) : Addon :=
  match lookupAddon m a.name with
  | none => a
  | some e => e.merge a

theorem lookupAddon_replaceKey (m : Manifest) (k : String) (v : Addon)
    (h : (lookupAddon m k).isSome) :
    lookupAddon (replaceKey m k v) k = some v := by
  induction m with
  | nil => simp [lookupAddon] at h
  | cons e rest ih =>
      by_cases he : e.1 = k
      · simp [replaceKey, lookupAddon, he]
      · rw [lookupAddon, if_neg he] at h
        simpa [replaceKey, lookupAddon, he] using ih h

theorem lookupAddon_updateAddon (m : Manifest) (a : Addon) :
    lookupAddon (updateAddon m a) a.name = some (mergedOf m a) := by
  rw [updateAddon, mergedOf]
  cases hl : lookupAddon m a.name with
  | none => simp [lookupAddon]
  | some e =>
      exact lookupAddon_replaceKey m a.name (e.merge a) (by simp [hl])

/-- C7: merging a declaration `d` into the manifest entry `e` stored under the
same name yields the merged record `e.merge d` (never a wholesale replacement),
and every field of `e` that `d` leaves unset is kept — in particular a
declaration carrying only a branch preserves an existing checksum. -/
theorem update_addon_merges_preserving_unset (m : Manifest) (e d : Addon)
    (h : lookupAddon m d.name = some e) :
    lookupAddon (updateAddon m d) d.name = some (e.merge d) ∧
    (d.branch = none → (e.merge d).branch = e.branch) ∧
    (d.checksum = none → (e.merge d).checksum = e.checksum) ∧
    ((e.merge d).name = e.name) := by
  refine ⟨?_, ?_, ?_, rfl⟩
  · have := lookupAddon_updateAddon m d
    rwa [mergedOf, h] at this
  · intro hb; simp [Addon.merge, hb]
  · intro hc; simp [Addon.merge, hc]

/-- C7 witness: a declaration with only `branch` set merged into an entry
with `checksum` set keeps the stored checksum. -/
theorem update_addon_merges_preserving_unset_witness :
    lookupAddon [("a", Addon.mk "a" "u" none (some "abc"))] "a"
      = some (Addon.mk "a" "u" none (some "abc")) ∧
    lookupAddon
        (updateAddon [("a", Addon.mk "a" "u" none (some "abc"))]
          (Addon.mk "a" "u" (some "dev") none)) "a"
      = some (Addon.mk "a" "u" (some "dev") (some "abc")) := by
  have h := update_addon_merges_preserving_unset
    [("a", Addon.mk "a" "u" none (some "abc"))]
    (Addon.mk "a" "u" none (some "abc"))
    (Addon.mk "a" "u" (some "dev") none) (by decide)
  exact ⟨by decide, h.1⟩

/-- The git calls `Manager::update` may issue for a single addon after its
three initial state reads (current branch, default branch, current
revision). -/
inductive GitCall where
  | fetch
  | switch (b : String)
  | pull
  | reset (target : String)
  | readLatest (b : String)
deriving DecidableEq, Repr

/-- Per-addon result inside `Manager::update` (src/manager.rs:198-315):
`success` reaches the `success += 1` line, `skipped` is a logged sub-step
failure followed by `continue`, `fatal` is a `?` that propagates out of the
whole `update` call. -/
inductive Outcome where
  | success
  | skipped
  | fatal
deriving DecidableEq, Repr

/-- Scripted results of the version-control client for one addon's checkout
directory: the three state reads, the latest-revision read (`checksum` with a
branch argument), and the four mutating operations.  Results are arbitrary so
every failure combination of the external `git` process is covered. -/
structure GitEnv where
  branch_name : Except Err String
  default_branch_name : Except Err String
  checksum : Option String → Except Err String
  fetch : Except Err Unit
  switch : String → Except Err Unit
  pull : Except Err Unit
  reset : String → Except Err Unit

/-- The branch-switch path of `Manager::update`
(src/manager.rs:219-247 and 248-276; the two Rust arms are textually
identical up to the target branch): fetch, switch to the target, pull, then
hard-reset when a checksum is declared, each failure logging and
`continue`-ing. -/
def switchPath (env : GitEnv) (target : String) (ck : Option String) :
    List GitCall × Outcome :=
  match env.fetch with
  | .error _ => ([.fetch], .skipped)
  | .ok _ =>
  match env.switch target with
  | .error _ => ([.fetch, .switch target], .skipped)
  | .ok _ =>
  match env.pull with
  | .error _ => ([.fetch, .switch target, .pull], .skipped)
  | .ok _ =>
  match ck with
  | some c =>
      match env.reset c with
      | .error _ => ([.fetch, .switch target, .pull, .reset c], .skipped)
      | .ok _ => ([.fetch, .switch target, .pull, .reset c], .success)
  | none => ([.fetch, .switch target, .pull], .success)

/-- The already-on-the-intended-branch arm of `Manager::update`
(src/manager.rs:277-310): pin to a declared checksum that differs, follow the
default branch's latest revision when no checksum is declared (the latest
read's failure propagates via `?`), or do nothing. -/
def checksumArm (env : GitEnv) (ck : Option String)
    (default_branch current : String) : List GitCall × Outcome :=
  match ck with
  | some c =>
      if c ≠ current then
        match env.fetch with
        | .error _ => ([.fetch], .skipped)
        | .ok _ =>
            match env.reset c with
            | .error _ => ([.fetch, .reset c], .skipped)
            | .ok _ => ([.fetch, .reset c], .success)
      else ([], .success)
  | none =>
      match env.checksum (some default_branch) with
      | .error _ => ([.readLatest default_branch], .fatal)
      | .ok latest =>
          if latest ≠ current then
            match env.fetch with
            | .error _ => ([.readLatest default_branch, .fetch], .skipped)
            | .ok _ =>
                match env.reset latest with
                | .error _ =>
                    ([.readLatest default_branch, .fetch, .reset latest], .skipped)
                | .ok _ =>
                    ([.readLatest default_branch, .fetch, .reset latest], .success)
          else ([.readLatest default_branch], .success)

/-- One addon's processing inside `Manager::update` (src/manager.rs:209-314),
with `addon` the manifest entry after the declaration was merged in: read
current branch, default branch and current revision (each `?` being fatal to
the whole batch), then run the decision tree. -/
def updateOne (env : GitEnv) (addon : Addon) : List GitCall × Outcome :=
  match env.branch_name with
  | .error _ => ([], .fatal)
  | .ok branch =>
  match env.default_branch_name with
  | .error _ => ([], .fatal)
  | .ok default_branch =>
  match env.checksum none with
  | .error _ => ([], .fatal)
  | .ok current =>
  match addon.branch with
  | some b =>
      if b ≠ branch then switchPath env b addon.checksum
      else checksumArm env addon.checksum default_branch current
  | none =>
      if branch ≠ default_branch then
        switchPath env default_branch addon.checksum
      else checksumArm env addon.checksum default_branch current

/-- A sub-step of the claim's decision tree. -/
inductive SubStep where
  | fetchStep
  | switchTo (b : String)
  | pullStep
  | resetTo (c : String)
deriving DecidableEq, Repr

def stepCall : SubStep → GitCall
  | .fetchStep => .fetch
  | .switchTo b => .switch b
  | .pullStep => .pull
  | .resetTo c => .reset c

def runStep (env : GitEnv) : SubStep → Except Err Unit
  | .fetchStep => env.fetch
  | .switchTo b => env.switch b
  | .pullStep => env.pull
  | .resetTo c => env.reset c

/-- Execute a list of sub-steps in order; the first failure short-circuits
the remaining sub-steps and the addon counts as skipped. -/
def runSteps (env : GitEnv) : List SubStep → List GitCall × Outcome
  | [] => ([], .success)
  | s :: rest =>
      match runStep env s with
      | .error _ => ([stepCall s], .skipped)
      | .ok _ =>
          let next := runSteps env rest
          (stepCall s :: next.1, next.2)

/-- "if a checksum is also declared, hard-reset to it". -/
def optionalReset (ck : Option String) : List SubStep :=
  match ck with
  | some c => [.resetTo c]
  | none => []

/-- The claim's third decision rule, written from its words: with a declared
checksum differing from the current revision, fetch then hard-reset to it;
with no declared checksum, read the default branch's latest revision and only
when it differs fetch and hard-reset to it; with the declared checksum equal
to the current revision, no action.  (A failure of the latest-revision read
itself propagates, per §4.4's read step.) -/
def specPin (env : GitEnv) (ck : Option String)
    (default_branch current : String) : List GitCall × Outcome :=
  match ck with
  | some c =>
      if c ≠ current then runSteps env [.fetchStep, .resetTo c]
      else ([], .success)
  | none =>
      match env.checksum (some default_branch) with
      | .error _ => ([.readLatest default_branch], .fatal)
      | .ok latest =>
          if latest ≠ current then
            let next := runSteps env [.fetchStep, .resetTo latest]
            (.readLatest default_branch :: next.1, next.2)
          else ([.readLatest default_branch], .success)

/-- The claim's decision tree for one addon, written from its words, first
match wins: (1) declared branch set and differing → fetch, switch, pull,
optional hard-reset, run as short-circuiting sub-steps; (2) no declared
branch and current ≠ default → the same against the default branch;
(3) otherwise pin/follow/no-op per `specPin`. -/
def specUpdateOne (env : GitEnv) (addon : Addon) : List GitCall × Outcome :=
  match env.branch_name with
  | .error _ => ([], .fatal)
  | .ok branch =>
  match env.default_branch_name with
  | .error _ => ([], .fatal)
  | .ok default_branch =>
  match env.checksum none with
  | .error _ => ([], .fatal)
  | .ok current =>
  match addon.branch with
  | some b =>
      if b ≠ branch then
        runSteps env ([.fetchStep, .switchTo b, .pullStep] ++ optionalReset addon.checksum)
      else specPin env addon.checksum default_branch current
  | none =>
      if branch ≠ default_branch then
        runSteps env
          ([.fetchStep, .switchTo default_branch, .pullStep] ++ optionalReset addon.checksum)
      else specPin env addon.checksum default_branch current

theorem switchPath_eq_runSteps (env : GitEnv) (target : String)
    (ck : Option String) :
    switchPath env target ck
      = runSteps env ([.fetchStep, .switchTo target, .pullStep] ++ optionalReset ck) := by
  cases hf : env.fetch <;>
    cases hs : env.switch target <;>
      cases hp : env.pull <;>
        cases ck <;>
          simp [switchPath, runSteps, runStep, stepCall, optionalReset, hf, hs, hp]
  case ok.ok.ok.some c =>
    cases hr : env.reset c <;> simp [hr]

theorem checksumArm_eq_specPin (env : GitEnv) (ck : Option String)
    (default_branch current : String) :
    checksumArm env ck default_branch current
      = specPin env ck default_branch current := by
  cases ck with
  | some c =>
      by_cases hc : c = current
      · simp [checksumArm, specPin, hc]
      · cases hf : env.fetch <;> cases hr : env.reset c <;>
          simp [checksumArm, specPin, hc, hf, hr, runSteps, runStep, stepCall]
  | none =>
      cases hl : env.checksum (some default_branch) with
      | error e => simp [checksumArm, specPin, hl]
      | ok latest =>
          by_cases hc : latest = current
          · simp [checksumArm, specPin, hl, hc]
          · cases hf : env.fetch <;> cases hr : env.reset latest <;>
              simp [checksumArm, specPin, hl, hc, hf, hr, runSteps, runStep, stepCall]

/-- C1: for every scripted git environment and every manifest-merged addon,
the per-addon body of `Manager::update` performs exactly the claim's decision
tree — first match wins, with the claimed sub-steps in the claimed order, an
executed sub-step failure short-circuiting the remaining sub-steps of that
addon only (outcome `skipped`, not `fatal`), and no action when the declared
checksum equals the current revision. -/
theorem update_decision_tree (env : GitEnv) (addon : Addon) :
    updateOne env addon = specUpdateOne env addon := by
  cases h1 : env.branch_name with
  | error e => simp [updateOne, specUpdateOne, h1]
  | ok branch =>
  cases h2 : env.default_branch_name with
  | error e => simp [updateOne, specUpdateOne, h1, h2]
  | ok default_branch =>
  cases h3 : env.checksum none with
  | error e => simp [updateOne, specUpdateOne, h1, h2, h3]
  | ok current =>
      cases hb : addon.branch with
      | some b =>
          by_cases hne : b = branch <;>
            simp [updateOne, specUpdateOne, h1, h2, h3, hb, hne,
              switchPath_eq_runSteps, checksumArm_eq_specPin]
      | none =>
          by_cases hne : branch = default_branch <;>
            simp [updateOne, specUpdateOne, h1, h2, h3, hb, hne,
              switchPath_eq_runSteps, checksumArm_eq_specPin]

/-- The addon loop of `Manager::update` (src/manager.rs:189-324) over the
manifest and the desired list: addons absent from the manifest are skipped
silently; otherwise the declaration is merged into the manifest, the merged
entry is processed by `updateOne`, a fatal outcome (`?` on a state read)
aborts the whole batch, and any other outcome is recorded and processing
continues with the next addon. -/
def updateBatch (env : String → GitEnv) :
    Manifest → List Addon → Manifest × Except Unit (List (String × Outcome))
  | m, [] => (m, .ok [])
  | m, a :: rest =>
      if containsKey m a.name = false then updateBatch env m rest
      else
        let m1 := updateAddon m a
        let merged := (lookupAddon m1 a.name).getD a
        match (updateOne (env a.name) merged).2 with
        | .fatal => (m1, .error ())
        | o =>
            let next := updateBatch env m1 rest
            (next.1, next.2.map (fun l => (a.name, o) :: l))

/-- A git environment whose every call succeeds. -/
def allOkEnv : GitEnv :=
  ⟨.ok "main", .ok "main", fun _ => .ok "r1", .ok (), fun _ => .ok (), .ok (),
    fun _ => .ok ()⟩

/-- A git environment whose current-branch read fails (e.g. the spawn of
`git rev-parse --abbrev-ref HEAD` fails). -/
def readFailEnv : GitEnv :=
  { allOkEnv with branch_name := .error .ioErr }

/-- A git environment whose state reads all succeed (with the default
branch's tip ahead of the current revision) but whose mutating operations
all fail. -/
def opsFailEnv : GitEnv :=
  ⟨.ok "main", .ok "main",
    (fun ob => match ob with
      | none => .ok "r1"
      | some _ => .ok "r2"),
    .error .ioErr, fun _ => .error .ioErr, .error .ioErr, fun _ => .error .ioErr⟩

def addonA1 : Addon := ⟨"a1", "url1", none, none⟩

def addonA2 : Addon := ⟨"a2", "url2", none, none⟩

/-- C4 counterexample: with two addons in the manifest, a failure of the
first addon's current-branch read aborts the whole Update batch (the second
addon, which on its own would update fine, is never attempted), so a
per-addon read failure is not caught-and-continued. -/
theorem update_batch_aborts_on_read_failure :
    (updateBatch (fun n => if n = "a1" then readFailEnv else allOkEnv)
        [("a1", addonA1), ("a2", addonA2)] [addonA1, addonA2]).2
      = .error () ∧
    (updateBatch (fun _ => allOkEnv)
        [("a1", addonA1), ("a2", addonA2)] [addonA2]).2
      = .ok [("a2", .success)] := by
  exact ⟨rfl, rfl⟩

/-- All disk-state reads of a git environment succeed (current branch,
default branch, and `checksum` for every branch argument — the latter also
covers the latest-revision read). -/
def readsOk (g : GitEnv) : Prop :=
  (∃ v, g.branch_name = Except.ok v) ∧
  (∃ v, g.default_branch_name = Except.ok v) ∧
  ∀ ob, ∃ v, g.checksum ob = Except.ok v

theorem switchPath_not_fatal (env : GitEnv) (target : String)
    (ck : Option String) : (switchPath env target ck).2 ≠ Outcome.fatal := by
  cases hf : env.fetch <;> cases hs : env.switch target <;>
    cases hp : env.pull <;> cases ck <;>
      simp [switchPath, hf, hs, hp]
  case ok.ok.ok.some c =>
    cases hr : env.reset c <;> simp [hr]

theorem checksumArm_not_fatal (env : GitEnv) (ck : Option String)
    (default_branch current : String)
    (h : ∃ v, env.checksum (some default_branch) = Except.ok v) :
    (checksumArm env ck default_branch current).2 ≠ Outcome.fatal := by
  obtain ⟨v, hv⟩ := h
  cases ck with
  | some c =>
      by_cases hc : c = current
      · simp [checksumArm, hc]
      · cases hf : env.fetch with
        | error e => simp [checksumArm, hc, hf]
        | ok u => cases hr : env.reset c <;> simp [checksumArm, hc, hf, hr]
  | none =>
      by_cases hc : v = current
      · simp [checksumArm, hv, hc]
      · cases hf : env.fetch with
        | error e => simp [checksumArm, hv, hc, hf]
        | ok u => cases hr : env.reset v <;> simp [checksumArm, hv, hc, hf, hr]

theorem updateOne_not_fatal_of_readsOk (g : GitEnv) (a : Addon)
    (h : readsOk g) : (updateOne g a).2 ≠ Outcome.fatal := by
  obtain ⟨⟨b, hb⟩, ⟨db, hdb⟩, hck⟩ := h
  obtain ⟨cur, hcur⟩ := hck none
  rw [updateOne, hb, hdb, hcur]
  cases ha : a.branch with
  | some ab =>
      by_cases hne : ab = b <;> simp only [hne, if_pos, if_neg, ite_not, if_true, if_false]
      · simp only [ne_eq, not_true_eq_false, if_false]
        exact checksumArm_not_fatal g a.checksum db cur (hck _)
      · simp only [ne_eq, hne, not_false_eq_true, if_true]
        exact switchPath_not_fatal g ab a.checksum
  | none =>
      by_cases hne : b = db
      · simp only [ne_eq, hne, not_true_eq_false, if_false]
        exact checksumArm_not_fatal g a.checksum db cur (hck _)
      · simp only [ne_eq, hne, not_false_eq_true, if_true]
        exact switchPath_not_fatal g db a.checksum

/-- C4 (amended): per-addon failures of the mutating git sub-steps (fetch,
switch, pull, hard-reset) are caught and processing continues — with every
disk-state read succeeding, no addon's outcome is fatal and the Update batch
always completes with a full trace, whatever the mutating operations do; a
failure of a state read (current branch, default branch, current or latest
revision), however, aborts the whole batch, as the counterexample shows. -/
theorem update_batch_survives_op_failures (env : String → GitEnv)
    (m : Manifest) (addons : List Addon) (h : ∀ n, readsOk (env n)) :
    (∀ n a, (updateOne (env n) a).2 ≠ Outcome.fatal) ∧
    ∃ tr, (updateBatch env m addons).2 = Except.ok tr := by
  refine ⟨fun n a => updateOne_not_fatal_of_readsOk (env n) a (h n), ?_⟩
  induction addons generalizing m with
  | nil => exact ⟨[], rfl⟩
  | cons a rest ih =>
      rw [updateBatch]
      by_cases hm : containsKey m a.name = false
      · rw [if_pos hm]; exact ih m
      · rw [if_neg hm]
        have hnf := updateOne_not_fatal_of_readsOk (env a.name)
          ((lookupAddon (updateAddon m a) a.name).getD a) (h a.name)
        obtain ⟨tr, htr⟩ := ih (updateAddon m a)
        cases ho : (updateOne (env a.name)
            ((lookupAddon (updateAddon m a) a.name).getD a)).2 with
        | fatal => exact absurd ho hnf
        | success => exact ⟨(a.name, .success) :: tr, by simp [htr, ho, Except.map]⟩
        | skipped => exact ⟨(a.name, .skipped) :: tr, by simp [htr, ho, Except.map]⟩

/-- C4 witness: a batch over an environment whose reads succeed but whose
mutating operations all fail still completes, the failing addon merely being
recorded as skipped. -/
theorem update_batch_survives_op_failures_witness :
    (∀ n, readsOk ((fun _ : String => opsFailEnv) n)) ∧
    (∃ tr, (updateBatch (fun _ : String => opsFailEnv)
        [("a1", addonA1)] [addonA1]).2 = Except.ok tr) ∧
    (updateBatch (fun _ : String => opsFailEnv) [("a1", addonA1)] [addonA1]).2
      = Except.ok [("a1", .skipped)] := by
  have hreads : ∀ n, readsOk ((fun _ : String => opsFailEnv) n) := by
    intro n
    refine ⟨⟨"main", rfl⟩, ⟨"main", rfl⟩, fun ob => ?_⟩
    cases ob with
    | none => exact ⟨"r1", rfl⟩
    | some b => exact ⟨"r2", rfl⟩
  have h := update_batch_survives_op_failures (fun _ : String => opsFailEnv)
    [("a1", addonA1)] [addonA1] hreads
  exact ⟨hreads, h.2, rfl⟩

/-- Abstraction of `std::env::temp_dir()`. -/
def TEMP_DIR : String := "/tmp"

/-- The crate constant `ADDONS_DIR` (crate root module, not under src/): the
fixed subdirectory of the project root holding one checkout per addon name.
Its concrete value is immaterial to every claim below. -/
def ADDONS_DIR : String := "addons"

/-- `Path::join`. -/
def pjoin (a b : String) : String := a ++ "/" ++ b

/-- Filesystem-level effects of `Manager::clone_addon` and `Manager::add`. -/
inductive FsAction where
  | cloneInto (dir url name : String)
  | removeDirAll (path : String)
  | createDirAll (path : String)
  | rename (src dst : String)
deriving DecidableEq, Repr

/-- Scripted external world for one addon inside `Manager::add`: the result
of `Cli::clone`, the existence checks the code performs, the fresh
`Uuid::now_v7` token, and the two drift probes of the else-branch. -/
structure CloneEnv where
  cloneResult : Except Err Unit
  tempExists : Bool
  destExists : Bool
  parentExists : Bool
  uuid : String
  probeBranch : Except Err String
  probeChecksum : Except Err String

/-- `Manager::clone_addon` (src/manager.rs:48-78): with no manifest entry for
`name` it silently does nothing; otherwise it clones into the temp directory
under a name given by the entry's checksum (or the fresh uuid token), on
clone failure removes the temp directory if it exists and returns the error,
and on success removes a stale destination, creates the missing parent and
renames the temp clone into place.  (A failure of one of the cleanup calls
would surface as a different error; the call is still in the trace and the
result is still an error.) -/
def clone_addon (env : CloneEnv) (config : Manifest) (base name : String) :
    List FsAction × Except Err Unit :=
  match lookupAddon config name with
  | none => ([], .ok ())
  | some addon =>
      let temp_name := addon.checksum.getD env.uuid
      let fromP := pjoin TEMP_DIR temp_name
      let toP := pjoin (pjoin base ADDONS_DIR) addon.name
      match env.cloneResult with
      | .error er =>
          ([FsAction.cloneInto TEMP_DIR addon.clone_url temp_name]
              ++ (if env.tempExists then [FsAction.removeDirAll fromP] else []),
            .error er)
      | .ok _ =>
          ([FsAction.cloneInto TEMP_DIR addon.clone_url temp_name]
              ++ (if env.destExists then [FsAction.removeDirAll toP] else [])
              ++ (if env.parentExists then []
                  else [FsAction.createDirAll (pjoin base ADDONS_DIR)])
              ++ [FsAction.rename fromP toP],
            .ok ())

/-- Per-addon outcome of the `Manager::add` loop. -/
inductive AddOutcome where
  | added
  | cloneFailed
  | updateAvailable
  | upToDate
deriving DecidableEq, Repr

/-- One iteration of the `Manager::add` loop (src/manager.rs:86-126): a
missing checkout directory or missing manifest entry takes the fresh-install
path (merge then clone, a clone failure logged and skipped); otherwise the
declaration is merged and drift is probed (probe failures default to "no
drift" via `unwrap_or_default`). -/
def addOne (env : CloneEnv) (config : Manifest) (base : String) (a : Addon)
    (dirExists : Bool) : Manifest × List FsAction × AddOutcome :=
  if !dirExists || !containsKey config a.name then
    let config1 := updateAddon config a
    match clone_addon env config1 base a.name with
    | (acts, .error _) => (config1, acts, .cloneFailed)
    | (acts, .ok _) => (config1, acts, .added)
  else
    let branch_diff := match a.branch with
      | some v =>
          (match env.probeBranch with
            | .ok n => n != v
            | .error _ => false)
      | none => false
    let checksum_diff := match a.checksum with
      | some v =>
          (match env.probeChecksum with
            | .ok n => n != v
            | .error _ => false)
      | none => false
    (updateAddon config a, [],
      if branch_diff || checksum_diff then .updateAvailable else .upToDate)

/-- The whole `Manager::add` loop: every addon is processed in order and
contributes an outcome; no failure aborts the batch. -/
def addBatch (envs : String → CloneEnv) (dirEx : String → Bool)
    (base : String) : Manifest → List Addon → Manifest × List AddOutcome
  | m, [] => (m, [])
  | m, a :: rest =>
      let r := addOne (envs a.name) m base a (dirEx a.name)
      let next := addBatch envs dirEx base r.1 rest
      (next.1, r.2.2 :: next.2)

/-- C5: on the fresh-install path (checkout directory missing or manifest
entry missing) Add merges the declaration into the manifest, clones into a
temporary location named by the merged entry's pinned checksum (or the fresh
unique token when none is pinned), removes a stale destination and moves the
temporary clone into place; on clone failure the temporary directory, if
created, is removed and the addon is recorded as a per-item failure; and the
batch always continues — every addon of the list yields an outcome. -/
theorem add_fresh_install (env : CloneEnv) (config : Manifest) (base : String)
    (a : Addon) (dirExists : Bool)
    (h : dirExists = false ∨ containsKey config a.name = false) :
    (env.cloneResult = .ok () →
      addOne env config base a dirExists
        = (updateAddon config a,
            [FsAction.cloneInto TEMP_DIR (mergedOf config a).clone_url
                ((mergedOf config a).checksum.getD env.uuid)]
              ++ (if env.destExists then
                    [FsAction.removeDirAll
                      (pjoin (pjoin base ADDONS_DIR) (mergedOf config a).name)]
                  else [])
              ++ (if env.parentExists then []
                  else [FsAction.createDirAll (pjoin base ADDONS_DIR)])
              ++ [FsAction.rename
                    (pjoin TEMP_DIR ((mergedOf config a).checksum.getD env.uuid))
                    (pjoin (pjoin base ADDONS_DIR) (mergedOf config a).name)],
            AddOutcome.added)) ∧
    (∀ er, env.cloneResult = .error er →
      addOne env config base a dirExists
        = (updateAddon config a,
            [FsAction.cloneInto TEMP_DIR (mergedOf config a).clone_url
                ((mergedOf config a).checksum.getD env.uuid)]
              ++ (if env.tempExists then
                    [FsAction.removeDirAll
                      (pjoin TEMP_DIR ((mergedOf config a).checksum.getD env.uuid))]
                  else []),
            AddOutcome.cloneFailed)) ∧
    (∀ (envs : String → CloneEnv) (dirEx : String → Bool) (m : Manifest)
        (addons : List Addon),
      ((addBatch envs dirEx base m addons).2).length = addons.length) := by
  have hcond : (!dirExists || !containsKey config a.name) = true := by
    rcases h with h | h <;> simp [h]
  refine ⟨?_, ?_, ?_⟩
  · intro hok
    simp [addOne, hcond, clone_addon, lookupAddon_updateAddon, hok, mergedOf]
  · intro er herr
    simp [addOne, hcond, clone_addon, lookupAddon_updateAddon, herr, mergedOf]
  · intro envs dirEx m addons
    induction addons generalizing m with
    | nil => rfl
    | cons x rest ih => simp [addBatch, ih]

/-- C5 witness: a fresh install of an unpinned addon into an empty manifest
clones under the fresh token and renames it into place. -/
theorem add_fresh_install_witness :
    ((false : Bool) = false ∨ containsKey [] "a" = false) ∧
    addOne ⟨.ok (), false, false, true, "t1", .error .ioErr, .error .ioErr⟩
        [] "base" ⟨"a", "u", none, none⟩ false
      = ([("a", ⟨"a", "u", none, none⟩)],
          [FsAction.cloneInto TEMP_DIR "u" "t1",
            FsAction.rename (pjoin TEMP_DIR "t1")
              (pjoin (pjoin "base" ADDONS_DIR) "a")],
          AddOutcome.added) := by
  have h := add_fresh_install ⟨.ok (), false, false, true, "t1", .error .ioErr, .error .ioErr⟩
    [] "base" ⟨"a", "u", none, none⟩ false (Or.inl rfl)
  refine ⟨Or.inl rfl, ?_⟩
  have h1 := h.1 rfl
  simpa [mergedOf, lookupAddon, updateAddon, Addon.clone_url] using h1

/-- Rust `Path::file_stem` for a plain file name: `none` for an empty name,
the whole name when there is no `.` past the first character (this also
covers names beginning with `.` and containing no other `.`), otherwise the
portion before the final `.`. -/
def fileStem (s : String) : Option String :=
  match s.data with
  | [] => none
  | c :: rest =>
      match rsplitOnceChars '.' rest with
      | none => some s
      | some (before, _) => some ⟨c :: before⟩

/-- One entry of `read_dir` on the addons directory. -/
structure CleanEntry where
  name : String
  isDir : Bool
deriving DecidableEq, Repr

/-- The per-entry removal condition of `Manager::clean`
(src/manager.rs:331-337): the entry is a directory and its file stem is not
a key of the manifest (a stem-less path defaults to "keep" via
`unwrap_or_default`). -/
def cleanOrphanDir (m : Manifest) (e : CleanEntry) : Bool :=
  e.isDir &&
    (match fileStem e.name with
      | some s => !containsKey m s
      | none => false)

/-- `Manager::clean` (src/manager.rs:326-354): when the addons directory
exists, every entry satisfying `cleanOrphanDir` has `remove_dir_all`
attempted on it (a failed removal is logged and the scan continues, so the
attempted set does not depend on removal results); the returned list is the
entries removed, in scan order. -/
def cleanRemoved (addonsDirExists : Bool) (m : Manifest)
    (entries : List CleanEntry) : List String :=
  if addonsDirExists then
    entries.filterMap fun e => if cleanOrphanDir m e then some e.name else none
  else []

def manifestAC : Manifest := [("a", ⟨"a", "ua", none, none⟩), ("c", ⟨"c", "uc", none, none⟩)]

/-- C6 counterexample: a plain file `b` in the addons directory matches no
manifest key, yet Clean deletes nothing — the `is_dir` guard skips files, so
Clean does not delete every non-matching entry "whether file or
directory". -/
theorem clean_skips_file_entries :
    containsKey manifestAC "b" = false ∧
    cleanRemoved true manifestAC [⟨"a", true⟩, ⟨"b", false⟩, ⟨"c", true⟩] = [] := by
  exact ⟨rfl, rfl⟩

theorem cleanOrphanDir_iff (m : Manifest) (e : CleanEntry) :
    cleanOrphanDir m e = true ↔
      e.isDir = true ∧ ∃ s, fileStem e.name = some s ∧ containsKey m s = false := by
  cases hfs : fileStem e.name with
  | none => simp [cleanOrphanDir, hfs]
  | some s => simp [cleanOrphanDir, hfs]

/-- C6 (amended): Clean deletes exactly those entries of the addons
directory that are directories whose file stem does not match a key of the
current manifest; file entries and entries whose stem matches a manifest key
are left untouched, and the attempted-removal set is independent of
per-item removal failures (the scan always continues). -/
theorem clean_removes_exactly_orphan_dirs (m : Manifest)
    (entries : List CleanEntry)
    (hnd : (entries.map CleanEntry.name).Nodup) :
    ∀ e ∈ entries,
      e.name ∈ cleanRemoved true m entries ↔
        e.isDir = true ∧
          ∃ s, fileStem e.name = some s ∧ containsKey m s = false := by
  intro e he
  have hclean : cleanRemoved true m entries
      = entries.filterMap (fun e => if cleanOrphanDir m e then some e.name else none) := rfl
  rw [← cleanOrphanDir_iff, hclean, List.mem_filterMap]
  constructor
  · rintro ⟨x, hx, hfx⟩
    by_cases hc : cleanOrphanDir m x = true
    · rw [if_pos hc] at hfx
      have hxe : x = e := by
        have := List.inj_on_of_nodup_map hnd hx he
        exact this (Option.some.inj hfx)
      rwa [← hxe]
    · rw [if_neg hc] at hfx
      cases hfx
  · intro hc
    exact ⟨e, he, by rw [if_pos hc]⟩

/-- C6 witness: with checkout directories `{a, b, c}` and manifest keys
`{a, c}`, Clean deletes exactly `b`. -/
theorem clean_removes_exactly_orphan_dirs_witness :
    ([(⟨"a", true⟩ : CleanEntry), ⟨"b", true⟩, ⟨"c", true⟩].map CleanEntry.name).Nodup ∧
    ((⟨"b", true⟩ : CleanEntry).name ∈
        cleanRemoved true manifestAC [⟨"a", true⟩, ⟨"b", true⟩, ⟨"c", true⟩] ↔
      (⟨"b", true⟩ : CleanEntry).isDir = true ∧
        ∃ s, fileStem (⟨"b", true⟩ : CleanEntry).name = some s ∧
          containsKey manifestAC s = false) ∧
    cleanRemoved true manifestAC [⟨"a", true⟩, ⟨"b", true⟩, ⟨"c", true⟩] = ["b"] := by
  have hnd : ([(⟨"a", true⟩ : CleanEntry), ⟨"b", true⟩, ⟨"c", true⟩].map CleanEntry.name).Nodup := by
    decide
  have h := clean_removes_exactly_orphan_dirs manifestAC
    [⟨"a", true⟩, ⟨"b", true⟩, ⟨"c", true⟩] hnd ⟨"b", true⟩ (by decide)
  exact ⟨hnd, h, by decide⟩

/-- JSON values, for the manifest document (`.luarc.json`).  Objects keep
their fields as an ordered association list. -/
inductive JsonVal where
  | null
  | bool (b : Bool)
  | num (n : Int)
  | str (s : String)
  | arr (xs : List JsonVal)
  | obj (fields : List (String × JsonVal))

def lookupField : List (String × JsonVal) → String → Option JsonVal
  | [], _ => none
  | f :: rest, k => if f.1 = k then some f.2 else lookupField rest k

/-- The top-level keys the `LuaRc` struct recognizes
(src/config.rs:745-785): the renamed `$schema`, the camel-cased section
fields, and `workspace`; everything else is collected by the
`#[serde(flatten)] other` field (src/config.rs:783-784).  The `path` field
is `#[serde(skip)]` and takes part in neither direction. -/
def luaRcKeys : List String :=
  ["$schema", "addonManager", "completion", "diagnostics", "doc", "format",
    "hint", "hover", "misc", "runtime", "semantic", "signatureHelp", "spell",
    "type", "workspace"]

/-- The keys the `Workspace` struct recognizes (src/config.rs:671-706);
everything else is collected by its `#[serde(flatten)] other` field. -/
def workspaceKeys : List String :=
  ["checkThirdParty", "ignoreDir", "ignoreSubmodules", "library", "maxPreload",
    "preloadFileSize", "useGitIgnore", "userThirdParty", "addons"]

/-- The `Workspace` struct at the JSON level: recognized fields and the
flatten-collected unknown fields.  Recognized field payloads are kept as raw
JSON — their typed parsing is irrelevant to unknown-key passthrough. -/
structure WorkspaceDoc where
  known : List (String × JsonVal)
  other : List (String × JsonVal)

/-- The `LuaRc` struct at the JSON level: recognized non-workspace fields
(payloads kept raw), the structurally parsed `workspace` section, and the
flatten-collected unknown top-level fields. -/
structure LuaRcDoc where
  known : List (String × JsonVal)
  workspace : Option WorkspaceDoc
  other : List (String × JsonVal)

/-- Deserializing the `workspace` object: serde consumes the recognized
fields and the `#[serde(flatten)] other` catches the rest. -/
def parseWorkspace (fields : List (String × JsonVal)) : WorkspaceDoc :=
  ⟨fields.filter (fun f => workspaceKeys.contains f.1),
    fields.filter (fun f => !workspaceKeys.contains f.1)⟩

/-- Serializing the `workspace` object: recognized fields, then the flattened
unknown fields merged back in. -/
def writeWorkspace (w : WorkspaceDoc) : List (String × JsonVal) :=
  w.known ++ w.other

/-- Deserializing a `.luarc.json` document (`LuaRc::read`,
src/config.rs:840-847, through the serde derive): recognized top-level keys
are consumed (a `workspace` value that is not an object is a
deserialization error), unknown keys are caught by the flatten `other`
field. -/
def parseLuaRc (fields : List (String × JsonVal)) : Except Unit LuaRcDoc :=
  match lookupField fields "workspace" with
  | none =>
      .ok ⟨fields.filter (fun f => luaRcKeys.contains f.1 && f.1 != "workspace"),
        none,
        fields.filter (fun f => !luaRcKeys.contains f.1)⟩
  | some (.obj wfs) =>
      .ok ⟨fields.filter (fun f => luaRcKeys.contains f.1 && f.1 != "workspace"),
        some (parseWorkspace wfs),
        fields.filter (fun f => !luaRcKeys.contains f.1)⟩
  | some _ => .error ()

/-- Serializing a `LuaRc` back to JSON (`LuaRc::write`, src/config.rs:833-838,
through the serde derive): recognized fields, the `workspace` object, then
the flattened unknown fields merged back in. -/
def writeLuaRc (d : LuaRcDoc) : List (String × JsonVal) :=
  d.known
    ++ (match d.workspace with
        | some w => [("workspace", JsonVal.obj (writeWorkspace w))]
        | none => [])
    ++ d.other

theorem lookupField_filter_pos (p : String → Bool) (k : String)
    (hp : p k = true) (fields : List (String × JsonVal)) :
    lookupField (fields.filter (fun f => p f.1)) k = lookupField fields k := by
  induction fields with
  | nil => rfl
  | cons f rest ih =>
      by_cases hf : f.1 = k
      · have hpf : p f.1 = true := by rw [hf]; exact hp
        simp [List.filter_cons, hpf, hp, lookupField, hf]
      · cases hpf : p f.1 with
        | true => simp [List.filter_cons, hpf, lookupField, hf, ih]
        | false => simp [List.filter_cons, hpf, lookupField, hf, ih]

theorem lookupField_filter_neg (p : String → Bool) (k : String)
    (hp : p k = false) (fields : List (String × JsonVal)) :
    lookupField (fields.filter (fun f => p f.1)) k = none := by
  induction fields with
  | nil => rfl
  | cons f rest ih =>
      cases hpf : p f.1 with
      | true =>
          have hf : f.1 ≠ k := by
            intro hk
            rw [hk, hp] at hpf
            cases hpf
          simp [List.filter_cons, hpf, lookupField, hf, ih]
      | false => simp [List.filter_cons, hpf, ih]

theorem lookupField_append_of_none {l1 l2 : List (String × JsonVal)}
    {k : String} (h : lookupField l1 k = none) :
    lookupField (l1 ++ l2) k = lookupField l2 k := by
  induction l1 with
  | nil => rfl
  | cons f rest ih =>
      rw [lookupField] at h
      by_cases hf : f.1 = k
      · rw [if_pos hf] at h
        cases h
      · rw [if_neg hf] at h
        simp [lookupField, hf, ih h]

theorem lookupField_cons_ne {f : String × JsonVal}
    {rest : List (String × JsonVal)} {k : String} (h : f.1 ≠ k) :
    lookupField (f :: rest) k = lookupField rest k := by
  simp [lookupField, h]

/-- C8: loading a manifest document and immediately re-saving it preserves
every top-level key unrecognized by the `LuaRc` schema with its value
unchanged, and likewise every key inside the `workspace` object unrecognized
by the `Workspace` schema. -/
theorem luarc_roundtrip_preserves_unknown_fields
    (fields : List (String × JsonVal)) (d : LuaRcDoc)
    (hp : parseLuaRc fields = .ok d) :
    (∀ k, luaRcKeys.contains k = false →
        lookupField (writeLuaRc d) k = lookupField fields k) ∧
    (∀ wfs, lookupField fields "workspace" = some (.obj wfs) →
        lookupField (writeLuaRc d) "workspace"
            = some (.obj (writeWorkspace (parseWorkspace wfs))) ∧
        ∀ k, workspaceKeys.contains k = false →
          lookupField (writeWorkspace (parseWorkspace wfs)) k
              = lookupField wfs k) := by
  have hknown_none : ∀ k, luaRcKeys.contains k = false →
      lookupField
        (fields.filter (fun f => luaRcKeys.contains f.1 && f.1 != "workspace")) k
        = none := by
    intro k hk
    exact lookupField_filter_neg (fun s => luaRcKeys.contains s && s != "workspace")
      k (by show (luaRcKeys.contains k && (k != "workspace")) = false; rw [hk]; rfl) fields
  have hws_none : lookupField
      (fields.filter (fun f => luaRcKeys.contains f.1 && f.1 != "workspace"))
      "workspace" = none := by
    exact lookupField_filter_neg (fun s => luaRcKeys.contains s && s != "workspace")
      "workspace" (by decide) fields
  constructor
  · intro k hk
    have hkws : k ≠ "workspace" := by
      intro hkk
      rw [hkk] at hk
      have hw : luaRcKeys.contains "workspace" = true := by decide
      rw [hw] at hk
      cases hk
    cases hws : lookupField fields "workspace" with
    | none =>
        rw [parseLuaRc, hws] at hp
        cases hp
        simp only [writeLuaRc, List.append_assoc, List.nil_append]
        rw [lookupField_append_of_none (hknown_none k hk)]
        exact lookupField_filter_pos (fun s => !luaRcKeys.contains s) k
          (by show (!luaRcKeys.contains k) = true; rw [hk]; rfl) fields
    | some wv =>
        cases wv with
        | obj wfs =>
            rw [parseLuaRc, hws] at hp
            cases hp
            simp only [writeLuaRc, List.append_assoc, List.singleton_append]
            rw [lookupField_append_of_none (hknown_none k hk)]
            rw [lookupField_cons_ne (Ne.symm hkws)]
            exact lookupField_filter_pos (fun s => !luaRcKeys.contains s) k
              (by show (!luaRcKeys.contains k) = true; rw [hk]; rfl) fields
        | null => rw [parseLuaRc, hws] at hp; cases hp
        | bool b => rw [parseLuaRc, hws] at hp; cases hp
        | num n => rw [parseLuaRc, hws] at hp; cases hp
        | str s => rw [parseLuaRc, hws] at hp; cases hp
        | arr xs => rw [parseLuaRc, hws] at hp; cases hp
  · intro wfs hws
    rw [parseLuaRc, hws] at hp
    cases hp
    constructor
    · simp only [writeLuaRc, List.append_assoc, List.singleton_append]
      rw [lookupField_append_of_none hws_none]
      simp [lookupField]
    · intro k hk
      rw [writeWorkspace, parseWorkspace]
      rw [lookupField_append_of_none
        (lookupField_filter_neg (fun s => workspaceKeys.contains s) k hk wfs)]
      exact lookupField_filter_pos (fun s => !workspaceKeys.contains s) k
        (by show (!workspaceKeys.contains k) = true; rw [hk]; rfl) wfs

def sampleWorkspaceFields : List (String × JsonVal) :=
  [("library", .arr []), ("customNested", .str "x")]

def sampleFields : List (String × JsonVal) :=
  [("$schema", .str "s"), ("customTop", .num 1),
    ("workspace", .obj sampleWorkspaceFields)]

def sampleDoc : LuaRcDoc :=
  ⟨[("$schema", .str "s")],
    some ⟨[("library", .arr [])], [("customNested", .str "x")]⟩,
    [("customTop", .num 1)]⟩

/-- C8 witness: a document with an unknown top-level key `customTop` and an
unknown nested key `workspace.customNested` keeps both, with values
unchanged, across a load/save round trip. -/
theorem luarc_roundtrip_preserves_unknown_fields_witness :
    parseLuaRc sampleFields = .ok sampleDoc ∧
    lookupField (writeLuaRc sampleDoc) "customTop" = some (.num 1) ∧
    lookupField (writeWorkspace (parseWorkspace sampleWorkspaceFields))
        "customNested" = some (.str "x") := by
  have h := luarc_roundtrip_preserves_unknown_fields sampleFields sampleDoc rfl
  refine ⟨rfl, ?_, ?_⟩
  · rw [h.1 "customTop" rfl]
    rfl
  · rw [(h.2 sampleWorkspaceFields rfl).2 "customNested" rfl]
    rfl

/-- One `read_dir` entry of the addons directory as `LuaRc::new` observes it:
its name, whether `<entry>/.git` and `<entry>/config.json` exist, whether the
entry is a directory or a file, and the result of the
`git rev-parse --verify HEAD` probe (which the code runs in the process
working directory, not in the entry). -/
structure NewEntry where
  name : String
  hasGit : Bool
  hasConfig : Bool
  isDir : Bool
  isFile : Bool
  probe : CmdResult

/-- Destructive/persisting effects of `LuaRc::new`. -/
inductive NewAction where
  | removeDirAll (name : String)
  | removeFile (name : String)
  | writeLuaRcFile
deriving DecidableEq, Repr

/-- Modelled from the spec and the call shape `Addon::cats(name, Some(sha),
None)` (src/config.rs:870; the constructor itself is in the crate root
module, not under src/): an addon record named after the checkout with the
probed revision as checksum and no branch. -/
def Addon.cats (name : String) (checksum : Option String)
    (branch : Option String) : Addon :=
  ⟨name, name, branch, checksum⟩

/-- Processing of one entry inside `LuaRc::new` (src/config.rs:855-889):
an entry with both `.git` and `config.json` has its revision probed — probe
spawn failure propagates via `?`, a successful probe with nonempty trimmed
sha synthesizes a manifest entry, any other probe outcome only logs; an
entry lacking `.git` or `config.json` is deleted (`remove_dir_all` for a
directory, `remove_file` for a file). -/
def luaRcNewStep (e : NewEntry) :
    Except Err (Option (String × Addon) × List NewAction) :=
  if e.hasGit && e.hasConfig then
    match e.probe with
    | .error er => .error er
    | .ok out =>
        if out.success && strTrim out.stdout != "" then
          let name := (fileStem e.name).getD e.name
          .ok (some (name, Addon.cats name (some (strTrim out.stdout)) none), [])
        else
          .ok (none, [])
  else if e.isDir then .ok (none, [NewAction.removeDirAll e.name])
  else if e.isFile then .ok (none, [NewAction.removeFile e.name])
  else .ok (none, [])

/-- `LuaRc::new` (src/config.rs:849-910): when the addons directory exists,
fold over its entries collecting synthesized manifest entries and deletions;
afterwards write the fresh `.luarc.json`.  Returns the synthesized
`workspace.addons` map and the effect trace. -/
def luaRcNew (addonsDirExists : Bool) (entries : List NewEntry) :
    Except Err (Manifest × List NewAction) :=
  if addonsDirExists then
    match go entries with
    | .error er => .error er
    | .ok (m, acts) => .ok (m, acts ++ [NewAction.writeLuaRcFile])
  else .ok ([], [NewAction.writeLuaRcFile])
where
  go : List NewEntry → Except Err (Manifest × List NewAction)
    | [] => .ok ([], [])
    | e :: rest =>
        match luaRcNewStep e with
        | .error er => .error er
        | .ok (ins, acts) =>
            match go rest with
            | .error er => .error er
            | .ok (m, acts2) =>
                .ok ((match ins with
                      | some kv => kv :: m
                      | none => m),
                  acts ++ acts2)

/-- `LuaRc::detect` (src/config.rs:790-798), as called by `Manager::new`
(src/manager.rs:38-46): with a `.luarc.json` present the file is read and
nothing on disk is touched; with no `.luarc.json` the whole effectful
`LuaRc::new` runs before any engine operation. -/
def luaRcDetect (luarcExists : Bool) (fileManifest : Manifest)
    (addonsDirExists : Bool) (entries : List NewEntry) :
    Except Err (Manifest × List NewAction) :=
  if luarcExists then .ok (fileManifest, [])
  else luaRcNew addonsDirExists entries

def probedEntry : NewEntry :=
  ⟨"a", true, true, true, false, .ok ⟨false, "", "fatal: not a git repository"⟩⟩

/-- C9 counterexample: a checkout containing both a `.git` directory and a
`config.json` whose revision probe exits non-zero gets no synthesized
manifest entry (it is not deleted either, only logged), so construction does
not synthesize an entry for *each* such checkout. -/
theorem luarc_new_skips_failed_probe :
    probedEntry.hasGit = true ∧ probedEntry.hasConfig = true ∧
    luaRcNew true [probedEntry]
      = .ok ([], [NewAction.writeLuaRcFile]) := by
  exact ⟨rfl, rfl, rfl⟩

/-- The manifest entries `LuaRc::new` synthesizes, as the amended claim
states them: one per checkout that contains both `.git` and `config.json`
and whose revision probe succeeds with a nonempty trimmed sha. -/
def synthesized (entries : List NewEntry) : Manifest :=
  entries.filterMap fun e =>
    if e.hasGit && e.hasConfig then
      match e.probe with
      | .ok out =>
          if out.success && strTrim out.stdout != "" then
            some ((fileStem e.name).getD e.name,
              Addon.cats ((fileStem e.name).getD e.name)
                (some (strTrim out.stdout)) none)
          else none
      | .error _ => none
    else none

/-- The deletions `LuaRc::new` performs: every entry lacking `.git` or
`config.json` is removed (as a directory or as a file); probed checkouts are
never deleted. -/
def newDeletions (entries : List NewEntry) : List NewAction :=
  entries.filterMap fun e =>
    if e.hasGit && e.hasConfig then none
    else if e.isDir then some (.removeDirAll e.name)
    else if e.isFile then some (.removeFile e.name)
    else none

theorem luaRcNew_go_eq (entries : List NewEntry)
    (h : ∀ e ∈ entries, ∃ out, e.probe = Except.ok out) :
    luaRcNew.go entries = .ok (synthesized entries, newDeletions entries) := by
  induction entries with
  | nil => rfl
  | cons e rest ih =>
      obtain ⟨out, hout⟩ := h e (List.mem_cons_self e rest)
      have ihr := ih fun x hx => h x (List.mem_cons_of_mem e hx)
      rw [luaRcNew.go]
      by_cases hgc : (e.hasGit && e.hasConfig) = true
      · have hg : e.hasGit = true ∧ e.hasConfig = true := by simpa using hgc
        cases hsucc : (out.success && (strTrim out.stdout != "")) with
        | true =>
            have hs : out.success = true ∧ ¬strTrim out.stdout = "" := by
              simpa using hsucc
            simp [luaRcNewStep, hgc, hg.1, hg.2, hout, hs.1, hs.2, ihr,
              synthesized, newDeletions, List.filterMap_cons]
        | false =>
            have hs : out.success = false ∨ strTrim out.stdout = "" := by
              rcases Bool.and_eq_false_iff.mp hsucc with hx | hx
              · exact Or.inl (by simpa using hx)
              · exact Or.inr (by simpa using hx)
            rcases hs with hs | hs
            · simp [luaRcNewStep, hgc, hg.1, hg.2, hout, hs, ihr,
                synthesized, newDeletions, List.filterMap_cons]
            · simp [luaRcNewStep, hgc, hg.1, hg.2, hout, hs, ihr,
                synthesized, newDeletions, List.filterMap_cons]
      · have hg : ¬(e.hasGit = true ∧ e.hasConfig = true) := by simpa using hgc
        by_cases hd : e.isDir = true
        · simp [luaRcNewStep, hgc, hg, hd, hout, ihr, synthesized,
            newDeletions, List.filterMap_cons]
        · by_cases hf : e.isFile = true <;>
            simp [luaRcNewStep, hgc, hg, hd, hf, hout, ihr, synthesized,
              newDeletions, List.filterMap_cons]

/-- C9 (amended): constructing the manager for a project directory with no
`.luarc.json` is effectful and destructive — it scans the addons directory,
synthesizes a manifest entry for each checkout holding both a `.git`
directory and a `config.json` file *whose revision probe succeeds with a
nonempty sha* (probe-failed checkouts are neither recorded nor deleted),
deletes every entry lacking `.git` or `config.json` (directory or file), and
writes a fresh `.luarc.json` — whereas with a `.luarc.json` present the
construction reads it and touches nothing. -/
theorem luarc_new_effectful_characterization (entries : List NewEntry)
    (h : ∀ e ∈ entries, ∃ out, e.probe = Except.ok out) :
    luaRcNew true entries
        = .ok (synthesized entries,
            newDeletions entries ++ [NewAction.writeLuaRcFile]) ∧
    luaRcDetect false [] true entries = luaRcNew true entries ∧
    (∀ fm : Manifest, luaRcDetect true fm true entries = .ok (fm, [])) := by
  refine ⟨?_, rfl, fun fm => rfl⟩
  have hgo := luaRcNew_go_eq entries h
  simp [luaRcNew, hgo]

def entryGood : NewEntry := ⟨"good", true, true, true, false, .ok ⟨true, "r1", ""⟩⟩

def entryJunk : NewEntry := ⟨"junk", false, false, true, false, .ok ⟨true, "", ""⟩⟩

/-- C9 witness: one probed checkout and one junk directory — the checkout's
entry is synthesized, the junk directory is deleted, and the fresh manifest
is written. -/
theorem luarc_new_effectful_characterization_witness :
    (∀ e ∈ [entryGood, entryJunk], ∃ out, e.probe = Except.ok out) ∧
    luaRcNew true [entryGood, entryJunk]
        = .ok (synthesized [entryGood, entryJunk],
            newDeletions [entryGood, entryJunk] ++ [NewAction.writeLuaRcFile]) ∧
    synthesized [entryGood, entryJunk]
        = [("good", Addon.cats "good" (some "r1") none)] ∧
    newDeletions [entryGood, entryJunk] = [NewAction.removeDirAll "junk"] := by
  have hh : ∀ e ∈ [entryGood, entryJunk], ∃ out, e.probe = Except.ok out := by
    intro e he
    cases he with
    | head => exact ⟨⟨true, "r1", ""⟩, rfl⟩
    | tail _ h2 =>
        cases h2 with
        | head => exact ⟨⟨true, "", ""⟩, rfl⟩
        | tail _ h3 => cases h3
  have h := luarc_new_effectful_characterization [entryGood, entryJunk] hh
  exact ⟨hh, h.1, by decide, by decide⟩
